import Mathlib

/-!
Verification of the MeTTa knowledge-base core of the block-police repository.

The definitions below are a shallow embedding of
`src/mcp/metta/knowledge_base.py` (class `MeTTaKnowledgeBase`) and of the
entity/relationship tracking of `src/mcps/metta/knowledge_graph.py`
(class `KnowledgeGraph`, with the documented mock MeTTa backend, whose
`add_atom` always succeeds).

Modelling conventions:
* Python `str` is modelled as `List Char` (`Str`); f-string concatenation is
  list append.
* Python `dict` is modelled as an association list that preserves insertion
  order: updating an existing key rewrites the value in place, a new key is
  appended at the end.  This matches CPython's ordered-dict iteration, which
  the detection passes rely on.
* Python `int` is `Int` (arbitrary precision); `%` on non-negative modulus is
  `Int.emod`, matching Python's floored modulo.
* Fallible code (`int(value, 16)` raising `ValueError`) is modelled with
  `Except Unit`.
-/

/-- Python strings modelled as lists of characters. -/
abbrev Str := List Char

/-- String-literal helper for concrete inputs. -/
def str (s : String) : Str := s.toList

/-- Python truthiness of an optional string: `None` and `""` are falsy. -/
def truthy : Option Str → Bool
  | some (_ :: _) => true
  | _ => false

/-- Insertion-ordered association list modelling a Python `dict`. -/
abbrev Dict (α : Type) := List (Str × α)

/-- Lookup of the first (unique) binding for a key, `dict.get`. -/
def alGet {α : Type} : Dict α → Str → Option α
  | [], _ => none
  | (k, v) :: rest, k' => if k = k' then some v else alGet rest k'

/-- Membership test on keys, the Python `in` operator on a `dict`. -/
def alMem {α : Type} (l : Dict α) (k : Str) : Bool :=
  (alGet l k).isSome

/-- Assignment `d[k] = v`: rewrite an existing binding in place, or append a
new binding at the end, as CPython's insertion-ordered `dict` does. -/
def alInsert {α : Type} : Dict α → Str → α → Dict α
  | [], k, v => [(k, v)]
  | (k0, v0) :: rest, k, v =>
    if k0 = k then (k0, v) :: rest else (k0, v0) :: alInsert rest k v

/-- Python `set.add` modelled on a list: add the element at the end if it is
not already present (only membership is ever observed). -/
def addSet (l : List Str) (x : Str) : List Str :=
  if x ∈ l then l else l ++ [x]

/-- Python `list.index` restricted to the uses in the source (the element is
known to be present; returns the list length when absent). -/
def listIndexOf (x : Str) : List Str → Nat
  | [] => 0
  | y :: rest => if y = x then 0 else listIndexOf x rest + 1

/-- Python `str.split(":")`: splitting an empty string yields `[""]`, and each
separator occurrence adds one part. -/
def splitColon : Str → List Str
  | [] => [[]]
  | c :: rest =>
    if c = ':' then [] :: splitColon rest
    else
      match splitColon rest with
      | s :: ss => (c :: s) :: ss
      | [] => [[c]]

/-- Fuel-driven accumulator loop producing decimal digits, most significant
first; the fuel `n + 1` always suffices since the argument shrinks by a
factor of ten each step. -/
def natDigitsCore : Nat → Nat → Str → Str
  | 0, _, acc => acc
  | fuel + 1, n, acc =>
    if n < 10 then Char.ofNat (48 + n) :: acc
    else natDigitsCore fuel (n / 10) (Char.ofNat (48 + n % 10) :: acc)

/-- Decimal digits of a natural number, most significant first. -/
def natDigits (n : Nat) : Str := natDigitsCore (n + 1) n []

/-- Python `str(i)` for an integer, used by f-strings to render the
time-window component of grouping keys. -/
def intStr (i : Int) : Str :=
  if i < 0 then '-' :: natDigits i.natAbs else natDigits i.natAbs

/-- Value of a single hexadecimal digit, accepting both cases. -/
def hexDigitVal? (c : Char) : Option Nat :=
  if '0' ≤ c ∧ c ≤ '9' then some (c.toNat - '0'.toNat)
  else if 'a' ≤ c ∧ c ≤ 'f' then some (c.toNat - 'a'.toNat + 10)
  else if 'A' ≤ c ∧ c ≤ 'F' then some (c.toNat - 'A'.toNat + 10)
  else none

/-- Hex digits after the first one, allowing single underscores between
digits as Python's `int(s, 16)` does. -/
def parseHexDigits : Str → Nat → Option Nat
  | [], acc => some acc
  | '_' :: c :: rest, acc =>
    match hexDigitVal? c with
    | some v => parseHexDigits rest (acc * 16 + v)
    | none => none
  | ['_'], _ => none
  | c :: rest, acc =>
    match hexDigitVal? c with
    | some v => parseHexDigits rest (acc * 16 + v)
    | none => none

/-- A non-empty run of hex digits starting with a digit. -/
def parseHexStart : Str → Option Nat
  | [] => none
  | c :: rest =>
    match hexDigitVal? c with
    | some v => parseHexDigits rest v
    | none => none

/-- Digit part of `int(s, 16)` after the sign: an optional `0x`/`0X` prefix
(possibly followed by one underscore), then hex digits. -/
def parseHexBody : Str → Option Nat
  | '0' :: 'x' :: '_' :: rest => parseHexStart rest
  | '0' :: 'x' :: rest => parseHexStart rest
  | '0' :: 'X' :: '_' :: rest => parseHexStart rest
  | '0' :: 'X' :: rest => parseHexStart rest
  | s => parseHexStart s

/-- Characters stripped by Python's `int` conversion. -/
def isPySpace (c : Char) : Bool :=
  c = ' ' ∨ c = '\t' ∨ c = '\n' ∨ c = '\r' ∨ c = '\x0b' ∨ c = '\x0c'

/-- Python `int(s, 16)`: strip whitespace, optional sign, optional `0x`
prefix, then at least one hex digit; `none` models the `ValueError`. -/
def pyIntHex? (s : Str) : Option Int :=
  let t := (s.dropWhile isPySpace).reverse.dropWhile isPySpace |>.reverse
  match t with
  | '-' :: r => (parseHexBody r).map (fun n => -(n : Int))
  | '+' :: r => (parseHexBody r).map (fun n => (n : Int))
  | r => (parseHexBody r).map (fun n => (n : Int))

/-- A Python value that is either an `int` or a `str` (the two value shapes
the ingestion layer receives for the `value` field). -/
abbrev PyVal := Int ⊕ Str

/-- Transaction record: the fields of the transaction dictionary that
`knowledge_base.py` reads; every field is optional exactly as `dict.get`
treats it. -/
structure TxData where
  fromA : Option Str := none
  toA : Option Str := none
  value : Option PyVal := none
  timestamp : Option Int := none
  hash : Option Str := none
  input : Option Str := none
  deriving DecidableEq, Repr

/-- Entity record as created by `_extract_entities`:
`{"type": "address", "transactions": []}` with hashes appended (a hash read
with `tx_data.get("hash")` may be `None`). -/
structure EntityRec where
  ty : Str
  transactions : List (Option Str)
  deriving DecidableEq, Repr

/-- JSON-like property value for relation data bags. -/
inductive JVal where
  | jnull : JVal
  | jbool : Bool → JVal
  | jnum : Int → JVal
  | jstr : Str → JVal
  deriving DecidableEq, Repr

/-- Relation property bag, a Python dict of properties. -/
abbrev RelData := Dict JVal

/-- Python `old.update(new)`: assign every binding of `new` into `old` in
order. -/
def dictUpdate (old new : RelData) : RelData :=
  new.foldl (fun acc kv => alInsert acc kv.1 kv.2) old

/-- Pattern records stored by `_detect_patterns` in `_pattern_store`. -/
inductive Pattern where
  | largeTransfer (txHash : Str) (value : Int) (timestamp : Int)
  | contractCreation (txHash : Str) (creator : Option Str) (timestamp : Int)
  deriving DecidableEq, Repr

/-- The four stores of `MeTTaKnowledgeBase`. -/
structure KB where
  txs : Dict TxData
  entities : Dict EntityRec
  patterns : Dict Pattern
  relations : Dict RelData
  deriving DecidableEq, Repr

/-- The freshly constructed knowledge base (`__init__`). -/
def kbEmpty : KB := ⟨[], [], [], []⟩

/-- Timestamp with the `tx_data.get("timestamp", 0)` default. -/
def tsOf (d : TxData) : Int := d.timestamp.getD 0

/-- One-hour epoch-aligned bucket `timestamp - (timestamp % 3600)`. -/
def tsWindow (t : Int) : Int := t - t % 3600

/-- Entity extraction (`_extract_entities`): for each truthy endpoint, create
the entity record if missing and append the transaction data's own `hash`
field. -/
def appendTxLink (ents : Dict EntityRec) (a : Str) (h : Option Str) :
    Dict EntityRec :=
  match alGet ents a with
  | none => alInsert ents a ⟨str "address", [h]⟩
  | some r => alInsert ents a ⟨r.ty, r.transactions ++ [h]⟩

/-- Both endpoints of one transaction processed in source order (sender
first, then receiver). -/
def extractEntities (ents : Dict EntityRec) (d : TxData) : Dict EntityRec :=
  let ents1 := if truthy d.fromA then appendTxLink ents (d.fromA.getD []) d.hash else ents
  if truthy d.toA then appendTxLink ents1 (d.toA.getD []) d.hash else ents1

/-- Transaction value as computed in `_detect_patterns`:
`int(v, 16)` for a string, the integer itself, or `0` when absent; a
non-hex string models the `ValueError`. -/
def parseTxValue (d : TxData) : Except Unit Int :=
  match d.value with
  | none => .ok 0
  | some (.inl n) => .ok n
  | some (.inr s) =>
    match pyIntHex? s with
    | some n => .ok n
    | none => .error ()

/-- Pattern-store key `large_transfer:{tx_hash}`. -/
def ltKey (h : Str) : Str := str "large_transfer:" ++ h

/-- Pattern-store key `contract_creation:{tx_hash}`. -/
def ccKey (h : Str) : Str := str "contract_creation:" ++ h

/-- Input payload with the `tx_data.get("input", "0x")` default. -/
def inputOf (d : TxData) : Str := d.input.getD (str "0x")

/-- Immediate per-transaction checks (`_detect_patterns`): the large-transfer
flag above 100 * 10^18 and the contract-creation flag for a receiver-less
transaction with non-empty input. -/
def detectPatterns (pats : Dict Pattern) (h : Str) (d : TxData) :
    Except Unit (Dict Pattern) :=
  match parseTxValue d with
  | .error e => .error e
  | .ok v =>
    let pats1 :=
      if 100 * 10 ^ 18 < v then
        alInsert pats (ltKey h) (.largeTransfer h v (tsOf d))
      else pats
    let pats2 :=
      if ¬ truthy d.toA ∧ inputOf d ≠ str "0x" then
        alInsert pats1 (ccKey h) (.contractCreation h d.fromA (tsOf d))
      else pats1
    .ok pats2

/-- Transaction ingestion (`add_transaction`): a duplicate hash returns
`False` before any mutation; a fresh hash stores the record, extracts
entities and runs the immediate pattern checks (whose value parse can raise,
modelled by the `Except`). -/
def addTransaction (kb : KB) (h : Str) (d : TxData) :
    Except Unit (KB × Bool) :=
  if alMem kb.txs h then .ok (kb, false)
  else
    match detectPatterns kb.patterns h d with
    | .error e => .error e
    | .ok pats =>
      .ok ({ kb with
             txs := kb.txs ++ [(h, d)]
             entities := extractEntities kb.entities d
             patterns := pats }, true)

/-- Composite relation key `f"{entity1}:{relation_type}:{entity2}"`. -/
def relKey (e1 t e2 : Str) : Str := e1 ++ ':' :: t ++ ':' :: e2

/-- Relation insertion (`add_relation`): merge the data bag under the
composite key; the entity store is not touched. -/
def addRelation (kb : KB) (e1 e2 t : Str) (d : RelData) : KB :=
  let k := relKey e1 t e2
  match alGet kb.relations k with
  | some old => { kb with relations := alInsert kb.relations k (dictUpdate old d) }
  | none => { kb with relations := kb.relations ++ [(k, d)] }

/-- Normalized relation view returned by `get_relations`. -/
structure RelEntry where
  entity1 : Str
  entity2 : Str
  ty : Str
  data : RelData
  deriving DecidableEq, Repr

/-- Relation query (`get_relations`): linear scan splitting each key on `:`;
keys that do not split into exactly three parts are skipped. -/
def getRelations (kb : KB) (e : Str) : List RelEntry :=
  kb.relations.filterMap fun kv =>
    match splitColon kv.1 with
    | [a, b, c] => if a = e ∨ c = e then some ⟨a, c, b, kv.2⟩ else none
    | _ => none

/-- Transaction hash lookup (`get_transaction`). -/
def getTransaction (kb : KB) (h : Str) : Option TxData :=
  alGet kb.txs h

/-- Entity lookup (`get_entity`). -/
def getEntity (kb : KB) (a : Str) : Option EntityRec :=
  alGet kb.entities a

/-- Hop record appended to a fund-flow path by `_trace_fund_flow`. -/
structure Hop where
  txHash : Str
  fromA : Str
  toA : Str
  value : PyVal
  timestamp : Int
  deriving DecidableEq, Repr

/-- One enumerated fund-flow path. -/
abbrev FlowPath := List Hop

/-- Hop value with the `tx_data.get("value", 0)` default (stored raw, without
hex conversion, exactly as the tracer does). -/
def hopValue (d : TxData) : PyVal := d.value.getD (.inl 0)

/-- Stable insertion of one transaction into a list sorted by timestamp
descending; an element goes after every earlier element with a strictly
larger or equal timestamp only when strictly larger, preserving the original
order of equal timestamps as Python's stable sort does. -/
def insertByTsDesc (x : Str × TxData) : List (Str × TxData) → List (Str × TxData)
  | [] => [x]
  | y :: ys =>
    if tsOf x.2 < tsOf y.2 then y :: insertByTsDesc x ys else x :: y :: ys

/-- Stable sort by timestamp descending,
`outgoing.sort(key=..., reverse=True)`. -/
def sortByTsDesc : List (Str × TxData) → List (Str × TxData)
  | [] => []
  | x :: xs => insertByTsDesc x (sortByTsDesc xs)

/-- Loop body of `_trace_fund_flow` over the sorted outgoing transfers;
`recur` is the recursive call at depth − 1.  For each transfer with a truthy
destination the hop is appended, the extended path is recorded when the
remaining depth is exactly one or the destination was already visited, and
the recursion then continues; the path is restored (popped) between
iterations while the visited set persists. -/
def traceLoop
    (recur : Str → List Hop → List FlowPath → List Str → List FlowPath × List Str)
    (depthOne : Bool) (addr : Str) (curPath : List Hop) :
    List (Str × TxData) → List FlowPath → List Str → List FlowPath × List Str
  | [], paths, visited => (paths, visited)
  | (h, d) :: rest, paths, visited =>
    if truthy d.toA then
      let toAddr := d.toA.getD []
      let hop : Hop := ⟨h, addr, toAddr, hopValue d, tsOf d⟩
      let paths1 :=
        if depthOne ∨ toAddr ∈ visited then paths ++ [curPath ++ [hop]] else paths
      let res := recur toAddr (curPath ++ [hop]) paths1 visited
      traceLoop recur depthOne addr curPath rest res.1 res.2
    else traceLoop recur depthOne addr curPath rest paths visited

/-- Recursive tracer `_trace_fund_flow`: stops at non-positive depth or an
already-visited address, marks the address visited, gathers the outgoing
transfers sorted by timestamp descending and runs the loop with the
depth − 1 recursion. -/
def traceFundFlow (kb : KB) : Nat → Str → List Hop → List FlowPath → List Str →
    List FlowPath × List Str
  | 0 => fun _ _ paths visited => (paths, visited)
  | d + 1 => fun addr curPath paths visited =>
    if addr ∈ visited then (paths, visited)
    else
      let visited1 := visited ++ [addr]
      let outgoing :=
        sortByTsDesc (kb.txs.filter fun p => p.2.fromA == some addr)
      traceLoop (traceFundFlow kb d) (d == 0) addr curPath outgoing paths visited1

/-- Fund-flow query (`query_fund_flow`): fresh path list and visited set,
returning the enumerated paths. -/
def queryFundFlow (kb : KB) (source : Str) (depth : Nat) : List FlowPath :=
  (traceFundFlow kb depth source [] [] []).1

/-- Findings returned by `detect_suspicious_patterns`, mirroring the three
finding dictionaries. -/
inductive Finding where
  | fundSplitting (fromAddr : Str) (recipientCount : Nat) (txCount : Nat)
      (transactions : List Str)
  | fundMerging (toAddr : Str) (senderCount : Nat) (txCount : Nat)
      (transactions : List Str)
  | cyclicTransfers (addresses : List Str) (transactions : List Str)
  deriving DecidableEq, Repr

/-- Test for a fund-splitting finding. -/
def Finding.isSplitting : Finding → Bool
  | .fundSplitting _ _ _ _ => true
  | _ => false

/-- Test for a fund-merging finding. -/
def Finding.isMerging : Finding → Bool
  | .fundMerging _ _ _ _ => true
  | _ => false

/-- Test for a cyclic-transfer finding. -/
def Finding.isCyclic : Finding → Bool
  | .cyclicTransfers _ _ => true
  | _ => false

/-- Number of distinct elements of a list, `len(set(l))`. -/
def distinctCount (l : List Str) : Nat := l.dedup.length

/-- Truthy receiver addresses of a transaction group,
`set(tx.get("to") for ... if tx.get("to"))` before taking the cardinality. -/
def truthyTos (txs : List (Str × TxData)) : List Str :=
  txs.filterMap fun p => if truthy p.2.toA then some (p.2.toA.getD []) else none

/-- Truthy sender addresses of a transaction group. -/
def truthyFroms (txs : List (Str × TxData)) : List Str :=
  txs.filterMap fun p => if truthy p.2.fromA then some (p.2.fromA.getD []) else none

/-- Grouping key `f"{addr}:{time_window}"`. -/
def groupKey (addr : Str) (w : Int) : Str := addr ++ ':' :: intStr w

/-- One step of the hour-bucket grouping loop: a transaction with a truthy
endpoint is appended to the group of its `f"{addr}:{time_window}"` key
(creating the group on first sight), any other transaction is skipped. -/
def groupStep (side : TxData → Option Str) (gs : Dict (List (Str × TxData)))
    (p : Str × TxData) : Dict (List (Str × TxData)) :=
  if truthy (side p.2) then
    match alGet gs (groupKey ((side p.2).getD []) (tsWindow (tsOf p.2))) with
    | none => gs ++ [(groupKey ((side p.2).getD []) (tsWindow (tsOf p.2)), [p])]
    | some l =>
      alInsert gs (groupKey ((side p.2).getD []) (tsWindow (tsOf p.2))) (l ++ [p])
  else gs

/-- Hour-bucket grouping of the transaction store by a truthy endpoint
selected by `side` (the shared shape of the splitting and merging passes). -/
def groupByWindow (side : TxData → Option Str) (txs : Dict TxData) :
    Dict (List (Str × TxData)) :=
  txs.foldl (groupStep side) []

/-- First part of a grouping key, `key.split(":")[0]`. -/
def keyHead (k : Str) : Str := (splitColon k).headD []

/-- Splitting pass (`_detect_splitting_patterns`): a group of at least five
same-hour transfers from one sender to at least three distinct truthy
receivers yields one finding. -/
def detectSplittingPatterns (kb : KB) : List Finding :=
  (groupByWindow TxData.fromA kb.txs).filterMap fun g =>
    if 5 ≤ g.2.length then
      if 3 ≤ distinctCount (truthyTos g.2) then
        some (.fundSplitting (keyHead g.1) (distinctCount (truthyTos g.2))
          g.2.length (g.2.map (·.1)))
      else none
    else none

/-- Merging pass (`_detect_merging_patterns`), symmetric on receivers. -/
def detectMergingPatterns (kb : KB) : List Finding :=
  (groupByWindow TxData.toA kb.txs).filterMap fun g =>
    if 5 ≤ g.2.length then
      if 3 ≤ distinctCount (truthyFroms g.2) then
        some (.fundMerging (keyHead g.1) (distinctCount (truthyFroms g.2))
          g.2.length (g.2.map (·.1)))
      else none
    else none

/-- One step of the transfer-multigraph construction: a transaction with
truthy sender and receiver appends its hash to the edge
`sender -> receiver`, creating the adjacency entries on first sight. -/
def graphStep (g : Dict (Dict (List Str))) (p : Str × TxData) :
    Dict (Dict (List Str)) :=
  if truthy p.2.fromA ∧ truthy p.2.toA then
    match alGet g (p.2.fromA.getD []) with
    | none => g ++ [(p.2.fromA.getD [], [(p.2.toA.getD [], [p.1])])]
    | some inner =>
      match alGet inner (p.2.toA.getD []) with
      | none =>
        alInsert g (p.2.fromA.getD []) (inner ++ [(p.2.toA.getD [], [p.1])])
      | some l =>
        alInsert g (p.2.fromA.getD [])
          (alInsert inner (p.2.toA.getD []) (l ++ [p.1]))
  else g

/-- Directed transfer multigraph `sender -> receiver -> list of hashes`
built from all transactions with truthy endpoints. -/
def buildGraph (txs : Dict TxData) : Dict (Dict (List Str)) :=
  txs.foldl graphStep []

/-- Neighbor loop of `_find_cycle`: recurse into unvisited neighbors
(returning the first non-empty cycle and threading the mutated visited set),
close a cycle on a neighbor already on the path stack, and skip neighbors
that are visited but off the path. -/
def findCycleLoop
    (recur : Str → List Str → List Str → List Str × List Str) :
    List (Str × List Str) → List Str → List Str → List Str × List Str
  | [], visited, _ => ([], visited)
  | (nb, _) :: rest, visited, path =>
    if nb ∈ visited then
      if nb ∈ path then (path.drop (listIndexOf nb path), visited)
      else findCycleLoop recur rest visited path
    else
      match recur nb visited path with
      | ([], visited1) => findCycleLoop recur rest visited1 path
      | (res, visited1) => (res, visited1)

/-- DFS helper `_find_cycle`.  Python needs no fuel because every nested call
adds a new graph node to the visited set; callers pass one more than the
number of graph nodes, which the same argument shows is never exhausted. -/
def findCycle (graph : Dict (Dict (List Str))) :
    Nat → Str → List Str → List Str → List Str × List Str
  | 0 => fun _ visited _ => ([], visited)
  | f + 1 => fun current visited path =>
    let visited1 := addSet visited current
    let path1 := path ++ [current]
    match alGet graph current with
    | none => ([], visited1)
    | some nbrs => findCycleLoop (findCycle graph f) nbrs visited1 path1

/-- Transactions lying on the consecutive edges of a cycle
(`_get_cycle_transactions`). -/
def getCycleTransactions (graph : Dict (Dict (List Str))) (cycle : List Str) :
    List Str :=
  (List.range cycle.length).foldl
    (fun acc i =>
      let fa := cycle.getD i []
      let ta := cycle.getD ((i + 1) % cycle.length) []
      match alGet graph fa with
      | some nbrs =>
        match alGet nbrs ta with
        | some l => acc ++ l
        | none => acc
      | none => acc)
    []

/-- Cyclic pass (`_detect_cyclic_transfers`): one DFS per starting node with
a fresh visited set and path stack, reporting the first cycle found from
that node. -/
def detectCyclicTransfers (kb : KB) : List Finding :=
  let graph := buildGraph kb.txs
  graph.filterMap fun g =>
    let cyc := (findCycle graph (graph.length + 1) g.1 [] []).1
    if cyc.isEmpty then none
    else some (.cyclicTransfers cyc (getCycleTransactions graph cyc))

/-- Full detection pass (`detect_suspicious_patterns`): splitting, merging,
then cyclic findings appended in source order. -/
def detectSuspiciousPatterns (kb : KB) : List Finding :=
  detectSplittingPatterns kb ++ detectMergingPatterns kb ++
    detectCyclicTransfers kb

/-- One top-level value of the snapshot document. -/
inductive DocVal where
  | dtxs : Dict TxData → DocVal
  | dents : Dict EntityRec → DocVal
  | dpats : Dict Pattern → DocVal
  | drels : Dict RelData → DocVal
  deriving DecidableEq, Repr

/-- Snapshot export (`save_to_file`): the four stores under the four fixed
top-level keys, in source order. -/
def saveToFile (kb : KB) : Dict DocVal :=
  [(str "transactions", .dtxs kb.txs), (str "entities", .dents kb.entities),
   (str "patterns", .dpats kb.patterns), (str "relations", .drels kb.relations)]

/-- Snapshot import (`load_from_file`): each store is replaced by the
document entry under its key, defaulting to empty; the previous in-memory
state is discarded entirely. -/
def loadFromFile (doc : Dict DocVal) (_prior : KB) : KB :=
  { txs :=
      match alGet doc (str "transactions") with
      | some (.dtxs t) => t
      | _ => []
    entities :=
      match alGet doc (str "entities") with
      | some (.dents e) => e
      | _ => []
    patterns :=
      match alGet doc (str "patterns") with
      | some (.dpats p) => p
      | _ => []
    relations :=
      match alGet doc (str "relations") with
      | some (.drels r) => r
      | _ => [] }

/-- Entity key `f"{entity_type}:{entity_id}"` of the knowledge graph. -/
def entKey (ty id : Str) : Str := ty ++ ':' :: id

/-- Knowledge-graph bookkeeping of `KnowledgeGraph` (mock MeTTa backend):
the sets of entity keys and relationship keys; the write-only mock atom
space is not observable and is omitted. -/
structure KG where
  entities : List Str
  relationships : List Str
  deriving DecidableEq, Repr

/-- Knowledge-graph `add_entity`: an existing key only gets property updates;
a new key is added to the tracked entity set (the mock `add_atom` always
succeeds). -/
def kgAddEntity (g : KG) (ty id : Str) : KG :=
  let k := entKey ty id
  if k ∈ g.entities then g
  else { g with entities := g.entities ++ [k] }

/-- Knowledge-graph `add_relationship`: auto-create either missing endpoint,
then record the relationship key. -/
def kgAddRelationship (g : KG) (fromTy fromId relTy toTy toId : Str) : KG :=
  let fk := entKey fromTy fromId
  let tk := entKey toTy toId
  let g1 := if fk ∈ g.entities then g else kgAddEntity g fromTy fromId
  let g2 := if tk ∈ g1.entities then g1 else kgAddEntity g1 toTy toId
  { g2 with
    relationships := addSet g2.relationships (fk ++ ':' :: relTy ++ ':' :: tk) }

/-! Helper lemmas about the dictionary model. -/

theorem alGet_alInsert_self {α : Type} (l : Dict α) (k : Str) (v : α) :
    alGet (alInsert l k v) k = some v := by
  induction l with
  | nil => simp [alInsert, alGet]
  | cons p rest ih =>
    by_cases h : p.1 = k
    · simp [alInsert, alGet, h]
    · simp [alInsert, alGet, h, ih]

theorem alGet_alInsert_ne {α : Type} (l : Dict α) (k k' : Str) (v : α)
    (h : k ≠ k') : alGet (alInsert l k v) k' = alGet l k' := by
  induction l with
  | nil => simp [alInsert, alGet, h]
  | cons p rest ih =>
    by_cases hp : p.1 = k
    · simp [alInsert, alGet, hp, h]
    · simp [alInsert, alGet, hp, ih]

theorem alGet_append_one {α : Type} (l : Dict α) (k k' : Str) (v : α) :
    alGet (l ++ [(k, v)]) k' =
      match alGet l k' with
      | some w => some w
      | none => if k = k' then some v else none := by
  induction l with
  | nil => simp [alGet]
  | cons p rest ih =>
    by_cases hp : p.1 = k'
    · simp [alGet, hp]
    · simp [alGet, hp, ih]

theorem mem_addSet (l : List Str) (x y : Str) :
    y ∈ addSet l x ↔ y ∈ l ∨ y = x := by
  unfold addSet
  by_cases h : x ∈ l
  · simp only [if_pos h]
    constructor
    · exact Or.inl
    · rintro (hy | rfl) <;> [exact hy; exact h]
  · simp [if_neg h]

/-! Helper lemmas about colon splitting. -/

theorem splitColon_ne_nil (s : Str) : splitColon s ≠ [] := by
  induction s with
  | nil => simp [splitColon]
  | cons c rest ih =>
    unfold splitColon
    by_cases h : c = ':'
    · simp [h]
    · simp only [if_neg h]
      cases hs : splitColon rest with
      | nil => simp
      | cons a as => simp

theorem splitColon_noColon_append (s t : Str) (h : ':' ∉ s) :
    splitColon (s ++ ':' :: t) = s :: splitColon t := by
  induction s with
  | nil => simp [splitColon]
  | cons c rest ih =>
    have hc : c ≠ ':' := fun e => h (e ▸ List.mem_cons_self c rest)
    have hr : ':' ∉ rest := fun e => h (List.mem_cons_of_mem c e)
    have step : splitColon ((c :: rest) ++ ':' :: t) =
        match splitColon (rest ++ ':' :: t) with
        | s :: ss => (c :: s) :: ss
        | [] => [[c]] := by
      rw [List.cons_append]
      conv_lhs => unfold splitColon
      rw [if_neg hc]
    rw [step, ih hr]

theorem mem_splitColon_noColon (s : Str) : ∀ p ∈ splitColon s, ':' ∉ p := by
  induction s with
  | nil => simp [splitColon]
  | cons c rest ih =>
    unfold splitColon
    by_cases h : c = ':'
    · simp only [if_pos h, List.mem_cons]
      rintro p (rfl | hp)
      · simp
      · exact ih p hp
    · simp only [if_neg h]
      cases hs : splitColon rest with
      | nil => exact absurd hs (splitColon_ne_nil rest)
      | cons a as =>
        intro p hp
        rcases List.mem_cons.mp hp with rfl | hp2
        · intro hmem
          rcases List.mem_cons.mp hmem with rfl | hmem2
          · exact h rfl
          · exact ih a (hs ▸ List.mem_cons_self a as) hmem2
        · exact ih p (hs ▸ List.mem_cons_of_mem a hp2)

theorem splitColon_length (s : Str) :
    (splitColon s).length = s.count ':' + 1 := by
  induction s with
  | nil => simp [splitColon]
  | cons c rest ih =>
    unfold splitColon
    by_cases h : c = ':'
    · simp [h, List.count_cons, ih]
    · simp only [if_neg h]
      cases hs : splitColon rest with
      | nil => exact absurd hs (splitColon_ne_nil rest)
      | cons a as =>
        have : (a :: as).length = rest.count ':' + 1 := hs ▸ ih
        simp only [List.length_cons] at this ⊢
        have hcount : (c :: rest).count ':' = rest.count ':' := by
          simp [List.count_cons, Ne.symm h]
        omega

theorem relKey_count (e1 t e2 : Str) :
    (relKey e1 t e2).count ':' = e1.count ':' + t.count ':' + e2.count ':' + 2 := by
  unfold relKey
  simp [List.count_append, List.count_cons]
  omega

theorem ltKey_ne_ccKey (h h' : Str) : ltKey h ≠ ccKey h' := by
  intro e
  have h1 : (ltKey h).head? = some 'l' := rfl
  have h2 : (ccKey h').head? = some 'c' := rfl
  rw [e, h2] at h1
  exact absurd (Option.some.inj h1) (by decide)

/-- Success of the transaction-value parse, the only failure source inside
`add_transaction`. -/
def valueWellFormed (d : TxData) : Prop :=
  ∀ s, d.value = some (.inr s) → (pyIntHex? s).isSome

theorem parseTxValue_ok (d : TxData) (hv : valueWellFormed d) :
    ∃ v, parseTxValue d = .ok v := by
  rcases hd : d.value with _ | val
  · exact ⟨0, by simp [parseTxValue, hd]⟩
  · rcases val with n | s
    · exact ⟨n, by simp [parseTxValue, hd]⟩
    · have hs := hv s hd
      rcases hp : pyIntHex? s with _ | n
      · rw [hp] at hs; simp at hs
      · exact ⟨n, by simp [parseTxValue, hd, hp]⟩

theorem detectPatterns_ok (pats : Dict Pattern) (h : Str) (d : TxData)
    (hv : valueWellFormed d) : ∃ pats2, detectPatterns pats h d = .ok pats2 := by
  obtain ⟨v, hvp⟩ := parseTxValue_ok d hv
  exact ⟨_, by unfold detectPatterns; rw [hvp]⟩

theorem truthy_some_of_ne_nil (a : Str) (h : a ≠ []) : truthy (some a) = true := by
  cases a with
  | nil => exact absurd rfl h
  | cons c rest => rfl

theorem appendTxLink_self (ents : Dict EntityRec) (a : Str) (h : Option Str) :
    ∃ r, alGet (appendTxLink ents a h) a = some r ∧
      r.transactions = ((alGet ents a).elim [] EntityRec.transactions) ++ [h] := by
  unfold appendTxLink
  cases hg : alGet ents a with
  | none => exact ⟨_, alGet_alInsert_self _ _ _, by simp⟩
  | some r0 => exact ⟨_, alGet_alInsert_self _ _ _, by simp⟩

theorem appendTxLink_other (ents : Dict EntityRec) (a b : Str) (h : Option Str)
    (hne : a ≠ b) : alGet (appendTxLink ents a h) b = alGet ents b := by
  unfold appendTxLink
  cases hg : alGet ents a with
  | none => exact alGet_alInsert_ne _ _ _ _ hne
  | some r0 => exact alGet_alInsert_ne _ _ _ _ hne

theorem addTransaction_fresh (kb : KB) (h : Str) (d : TxData)
    (pats : Dict Pattern) (hm : alMem kb.txs h = false)
    (hp : detectPatterns kb.patterns h d = .ok pats) :
    addTransaction kb h d =
      .ok ({ kb with
             txs := kb.txs ++ [(h, d)]
             entities := extractEntities kb.entities d
             patterns := pats }, true) := by
  have hm2 : ¬ (alMem kb.txs h = true) := by simp [hm]
  unfold addTransaction
  rw [if_neg hm2, hp]

/-- C1: re-adding an already-present transaction hash returns `False` and
leaves the whole store (transaction count, entity link lists, pattern store)
exactly unchanged. -/
theorem c1_duplicate_add_is_noop (kb : KB) (h : Str) (d : TxData)
    (hmem : alMem kb.txs h = true) :
    addTransaction kb h d = .ok (kb, false) := by
  unfold addTransaction
  rw [if_pos hmem]

theorem c1_duplicate_add_is_noop_witness :
    alMem (KB.mk [(str "h", ({} : TxData))] [] [] []).txs (str "h") = true ∧
    addTransaction (KB.mk [(str "h", ({} : TxData))] [] [] []) (str "h")
      { value := some (.inr (str "not hex")) } =
      .ok (KB.mk [(str "h", ({} : TxData))] [] [] [], false) :=
  ⟨by decide, c1_duplicate_add_is_noop _ _ _ (by decide)⟩

/-- C3 counterexample: `add_transaction` applied to a transaction whose
`value` field is the non-hexadecimal string "zz" does not terminate normally
with a boolean; the `int(value, 16)` conversion inside `_detect_patterns`
raises `ValueError` (the error outcome of the model), contradicting the
claim that any string value is tolerated. -/
theorem c3_counterexample :
    addTransaction kbEmpty (str "h") { value := some (.inr (str "zz")) } =
      .error () := rfl

/-- C3 amended: `add_transaction` communicates failure through its return
value for transaction dictionaries whose `value` field is absent, an
integer, or a string accepted by Python `int(value, 16)`; a string rejected
by that conversion instead raises `ValueError`. -/
theorem c3_no_exception_for_parseable_values (kb : KB) (h : Str) (d : TxData)
    (hv : valueWellFormed d) : ∃ r, addTransaction kb h d = .ok r := by
  by_cases hm : alMem kb.txs h = true
  · exact ⟨(kb, false), by unfold addTransaction; rw [if_pos hm]⟩
  · obtain ⟨pats, hp⟩ := detectPatterns_ok kb.patterns h d hv
    have hm2 : alMem kb.txs h = false := by
      cases hb : alMem kb.txs h
      · rfl
      · exact absurd hb hm
    exact ⟨_, addTransaction_fresh kb h d pats hm2 hp⟩

theorem c3_no_exception_for_parseable_values_witness :
    valueWellFormed { value := some (.inr (str "0x64")) } ∧
    ∃ r, addTransaction kbEmpty (str "h")
      { value := some (.inr (str "0x64")) } = .ok r :=
  ⟨fun s hs => by cases hs; decide,
   c3_no_exception_for_parseable_values kbEmpty (str "h") _
     (fun s hs => by cases hs; decide)⟩

/-- C4 counterexample: inserting a fresh hash "h1" with transaction data
that has sender and receiver fields but no `hash` field appends `None`
(not the inserted hash "h1") to both entity link lists, because
`_extract_entities` appends `tx_data.get("hash")` rather than the `tx_hash`
argument. -/
theorem c4_counterexample :
    ∃ kb' : KB,
      addTransaction kbEmpty (str "h1")
        { fromA := some (str "a"), toA := some (str "b") } = .ok (kb', true) ∧
      alGet kb'.entities (str "a") = some ⟨str "address", [none]⟩ ∧
      alGet kb'.entities (str "b") = some ⟨str "address", [none]⟩ ∧
      some (str "h1") ∉ ([none] : List (Option Str)) := by
  refine ⟨_, rfl, ?_, ?_, ?_⟩ <;> decide

/-- C4 amended: for a fresh hash and data with distinct truthy sender and
receiver (and a parseable value), `add_transaction` creates the sender and
receiver entity records if missing and appends the transaction data's own
`hash` field value (which is `None` when absent and equals the inserted
hash only when the caller stores it there) to each link list. -/
theorem c4_entity_links_append_data_hash (kb : KB) (h : Str) (d : TxData)
    (a b : Str)
    (hfresh : alMem kb.txs h = false)
    (hv : valueWellFormed d)
    (hfa : d.fromA = some a) (htb : d.toA = some b)
    (hane : a ≠ []) (hbne : b ≠ []) (hab : a ≠ b) :
    ∃ kb', addTransaction kb h d = .ok (kb', true) ∧
      (∃ r, alGet kb'.entities a = some r ∧
        r.transactions =
          ((alGet kb.entities a).elim [] EntityRec.transactions) ++ [d.hash]) ∧
      (∃ r, alGet kb'.entities b = some r ∧
        r.transactions =
          ((alGet kb.entities b).elim [] EntityRec.transactions) ++ [d.hash]) := by
  obtain ⟨pats, hp⟩ := detectPatterns_ok kb.patterns h d hv
  have hadd := addTransaction_fresh kb h d pats hfresh hp
  have e : extractEntities kb.entities d =
      appendTxLink (appendTxLink kb.entities a d.hash) b d.hash := by
    unfold extractEntities
    rw [hfa, htb, truthy_some_of_ne_nil a hane, truthy_some_of_ne_nil b hbne]
    simp
  refine ⟨_, hadd, ?_, ?_⟩
  · simp only [e]
    rw [appendTxLink_other _ b a _ (Ne.symm hab)]
    exact appendTxLink_self kb.entities a d.hash
  · simp only [e]
    obtain ⟨r, hr, hrt⟩ :=
      appendTxLink_self (appendTxLink kb.entities a d.hash) b d.hash
    refine ⟨r, hr, ?_⟩
    rw [hrt, appendTxLink_other _ a b _ hab]

theorem c4_entity_links_append_data_hash_witness :
    ∃ kb', addTransaction kbEmpty (str "hx")
        { fromA := some (str "a"), toA := some (str "b"),
          hash := some (str "hx") } = .ok (kb', true) ∧
      (∃ r, alGet kb'.entities (str "a") = some r ∧
        r.transactions =
          ((alGet kbEmpty.entities (str "a")).elim [] EntityRec.transactions) ++
            [some (str "hx")]) ∧
      (∃ r, alGet kb'.entities (str "b") = some r ∧
        r.transactions =
          ((alGet kbEmpty.entities (str "b")).elim [] EntityRec.transactions) ++
            [some (str "hx")]) :=
  c4_entity_links_append_data_hash kbEmpty (str "hx") _ (str "a") (str "b")
    (by decide) (fun s hs => by cases hs) rfl rfl (by decide) (by decide)
    (by decide)

/-- C6: inserting a fresh transaction whose parsed value exceeds
100 * 10^18 stores a large-transfer pattern under the key
`large_transfer:{hash}`, and inserting one at or below the threshold leaves
that key absent (given it was absent before). -/
theorem c6_large_transfer_threshold (kb : KB) (h : Str) (d : TxData) (v : Int)
    (hfresh : alMem kb.txs h = false) (hval : parseTxValue d = .ok v) :
    ∃ kb', addTransaction kb h d = .ok (kb', true) ∧
      (100 * 10 ^ 18 < v →
        alGet kb'.patterns (ltKey h) = some (.largeTransfer h v (tsOf d))) ∧
      (v ≤ 100 * 10 ^ 18 → alGet kb.patterns (ltKey h) = none →
        alGet kb'.patterns (ltKey h) = none) := by
  have hm : ¬ (alMem kb.txs h = true) := by simp [hfresh]
  have hcc : ccKey h ≠ ltKey h := fun e => ltKey_ne_ccKey h h e.symm
  refine ⟨_, by unfold addTransaction detectPatterns; rw [if_neg hm, hval], ?_, ?_⟩
  · intro hlt
    show alGet
      (if ¬ truthy d.toA ∧ inputOf d ≠ str "0x" then _ else _) (ltKey h) = _
    by_cases hc : ¬ truthy d.toA ∧ inputOf d ≠ str "0x"
    · rw [if_pos hc, alGet_alInsert_ne _ _ _ _ hcc, if_pos hlt,
        alGet_alInsert_self]
    · rw [if_neg hc, if_pos hlt, alGet_alInsert_self]
  · intro hle hnone
    have hnlt : ¬ (100 * 10 ^ 18 < v) := not_lt.mpr hle
    show alGet
      (if ¬ truthy d.toA ∧ inputOf d ≠ str "0x" then _ else _) (ltKey h) = _
    by_cases hc : ¬ truthy d.toA ∧ inputOf d ≠ str "0x"
    · rw [if_pos hc, alGet_alInsert_ne _ _ _ _ hcc, if_neg hnlt]
      exact hnone
    · rw [if_neg hc, if_neg hnlt]
      exact hnone

theorem c6_large_transfer_threshold_witness :
    alMem kbEmpty.txs (str "big") = false ∧
    parseTxValue { value := some (.inl (100 * 10 ^ 18 + 1)) } =
      .ok (100 * 10 ^ 18 + 1) ∧
    ∃ kb', addTransaction kbEmpty (str "big")
        { value := some (.inl (100 * 10 ^ 18 + 1)) } = .ok (kb', true) ∧
      ((100 * 10 ^ 18 : Int) < 100 * 10 ^ 18 + 1 →
        alGet kb'.patterns (ltKey (str "big")) =
          some (.largeTransfer (str "big") (100 * 10 ^ 18 + 1)
            (tsOf { value := some (.inl (100 * 10 ^ 18 + 1)) }))) ∧
      ((100 * 10 ^ 18 + 1 : Int) ≤ 100 * 10 ^ 18 →
        alGet kbEmpty.patterns (ltKey (str "big")) = none →
        alGet kb'.patterns (ltKey (str "big")) = none) :=
  ⟨by decide, rfl,
   c6_large_transfer_threshold kbEmpty (str "big")
     { value := some (.inl (100 * 10 ^ 18 + 1)) } (100 * 10 ^ 18 + 1)
     (by decide) rfl⟩

/-- C8: saving the four stores and loading the document into any prior store
reproduces the original contents exactly, the prior state being discarded
entirely. -/
theorem c8_snapshot_roundtrip (kb prior : KB) :
    loadFromFile (saveToFile kb) prior = kb := rfl

/-- C9 counterexample: `add_relation` on the base store records the relation
but does not create the endpoint entity records, so the stored relation
references entities absent from the entity store. -/
theorem c9_counterexample :
    alMem (addRelation kbEmpty (str "a") (str "b") (str "t") []).relations
      (str "a:t:b") = true ∧
    alGet (addRelation kbEmpty (str "a") (str "b") (str "t") []).entities
      (str "a") = none ∧
    alGet (addRelation kbEmpty (str "a") (str "b") (str "t") []).entities
      (str "b") = none := by
  refine ⟨?_, ?_, ?_⟩ <;> decide

/-- C9 amended: the knowledge-graph layer's `add_relationship` does
auto-create missing endpoint entities (both endpoint keys exist in its
entity set afterwards), but the base store's `add_relation` leaves the
entity store entirely unchanged, so its relations may reference nonexistent
entity records. -/
theorem c9_endpoint_creation_split :
    (∀ (g : KG) (fromTy fromId relTy toTy toId : Str),
      entKey fromTy fromId ∈ (kgAddRelationship g fromTy fromId relTy toTy toId).entities ∧
      entKey toTy toId ∈ (kgAddRelationship g fromTy fromId relTy toTy toId).entities) ∧
    (∀ (kb : KB) (e1 e2 t : Str) (d : RelData),
      (addRelation kb e1 e2 t d).entities = kb.entities) := by
  constructor
  · intro g fromTy fromId relTy toTy toId
    unfold kgAddRelationship kgAddEntity
    by_cases hf : entKey fromTy fromId ∈ g.entities
    · simp only [if_pos hf]
      by_cases ht : entKey toTy toId ∈ g.entities
      · simp [if_pos ht, hf, ht]
      · simp [if_neg ht, hf]
    · simp only [if_neg hf, if_neg hf]
      by_cases ht : entKey toTy toId ∈ g.entities ++ [entKey fromTy fromId]
      · simp only [if_pos ht]
        constructor
        · simp
        · simpa using ht
      · simp only [if_neg ht]
        constructor
        · simp
        · simp
  · intro kb e1 e2 t d
    unfold addRelation
    cases hg : alGet kb.relations (relKey e1 t e2) <;> simp [hg]

theorem splitColon_noColon (s : Str) (h : ':' ∉ s) : splitColon s = [s] := by
  induction s with
  | nil => rfl
  | cons c rest ih =>
    have hc : c ≠ ':' := fun e => h (e ▸ List.mem_cons_self c rest)
    have hr : ':' ∉ rest := fun e => h (List.mem_cons_of_mem c e)
    unfold splitColon
    rw [if_neg hc, ih hr]

theorem addRelation_fresh (kb : KB) (e1 e2 t : Str) (d : RelData)
    (hfresh : alGet kb.relations (relKey e1 t e2) = none) :
    (addRelation kb e1 e2 t d).relations =
      kb.relations ++ [(relKey e1 t e2, d)] := by
  simp only [addRelation, hfresh]

theorem mem_getRelations_fields (kb : KB) (e : Str) (entry : RelEntry)
    (hm : entry ∈ getRelations kb e) :
    ':' ∉ entry.entity1 ∧ ':' ∉ entry.ty ∧ ':' ∉ entry.entity2 := by
  unfold getRelations at hm
  rw [List.mem_filterMap] at hm
  obtain ⟨kv, hkv, hf⟩ := hm
  rcases hs : splitColon kv.1 with _ | ⟨a, _ | ⟨b, _ | ⟨c, _ | ⟨x, rest⟩⟩⟩⟩ <;>
    rw [hs] at hf
  · exact absurd hf (by simp)
  · exact absurd hf (by simp)
  · exact absurd hf (by simp)
  · have hf2 : (if a = e ∨ c = e then
        some (⟨a, c, b, kv.2⟩ : RelEntry) else none) = some entry := hf
    by_cases hcond : a = e ∨ c = e
    · rw [if_pos hcond] at hf2
      have he : entry = ⟨a, c, b, kv.2⟩ := (Option.some.inj hf2).symm
      subst he
      refine ⟨?_, ?_, ?_⟩
      · exact mem_splitColon_noColon kv.1 a (hs ▸ by simp)
      · exact mem_splitColon_noColon kv.1 b (hs ▸ by simp)
      · exact mem_splitColon_noColon kv.1 c (hs ▸ by simp)
    · rw [if_neg hcond] at hf2
      exact absurd hf2 (by simp)
  · exact absurd hf (by simp)

/-- C10: a relation stored under a fresh composite key `e1:t:e2` is returned
by `get_relations` (for either endpoint, with the normalized fields and the
stored data) exactly when the key splits into three colon-separated parts,
and a colon inside `e1`, `t` or `e2` makes the stored relation silently
missing from every `get_relations` result. -/
theorem c10_relation_colon_splitting (kb : KB) (e1 e2 t : Str) (d : RelData)
    (hfresh : alGet kb.relations (relKey e1 t e2) = none) :
    (((⟨e1, e2, t, d⟩ : RelEntry) ∈ getRelations (addRelation kb e1 e2 t d) e1 ∧
      (⟨e1, e2, t, d⟩ : RelEntry) ∈ getRelations (addRelation kb e1 e2 t d) e2) ↔
      (splitColon (relKey e1 t e2)).length = 3) ∧
    ((':' ∈ e1 ∨ ':' ∈ t ∨ ':' ∈ e2) →
      ∀ e, (⟨e1, e2, t, d⟩ : RelEntry) ∉ getRelations (addRelation kb e1 e2 t d) e) := by
  have hpart2 : (':' ∈ e1 ∨ ':' ∈ t ∨ ':' ∈ e2) →
      ∀ e, (⟨e1, e2, t, d⟩ : RelEntry) ∉ getRelations (addRelation kb e1 e2 t d) e := by
    intro hcol e hm
    obtain ⟨h1, h2, h3⟩ := mem_getRelations_fields _ e _ hm
    rcases hcol with hc | hc | hc
    · exact h1 hc
    · exact h2 hc
    · exact h3 hc
  refine ⟨⟨?_, ?_⟩, hpart2⟩
  · rintro ⟨hm, _⟩
    obtain ⟨h1, h2, h3⟩ := mem_getRelations_fields _ e1 _ hm
    rw [splitColon_length, relKey_count,
      List.count_eq_zero.mpr h1, List.count_eq_zero.mpr h2,
      List.count_eq_zero.mpr h3]
  · intro hlen
    rw [splitColon_length, relKey_count] at hlen
    have h1 : ':' ∉ e1 := by
      rw [← List.count_eq_zero (a := ':')]; omega
    have h2 : ':' ∉ t := by
      rw [← List.count_eq_zero (a := ':')]; omega
    have h3 : ':' ∉ e2 := by
      rw [← List.count_eq_zero (a := ':')]; omega
    have hsplit : splitColon (relKey e1 t e2) = [e1, t, e2] := by
      have hassoc : relKey e1 t e2 = e1 ++ ':' :: (t ++ ':' :: e2) := by
        unfold relKey
        simp
      rw [hassoc, splitColon_noColon_append e1 _ h1,
        splitColon_noColon_append t _ h2, splitColon_noColon e2 h3]
    have hrel := addRelation_fresh kb e1 e2 t d hfresh
    constructor
    · unfold getRelations
      rw [List.mem_filterMap]
      refine ⟨(relKey e1 t e2, d), ?_, ?_⟩
      · rw [hrel]; simp
      · rw [hsplit]
        simp
    · unfold getRelations
      rw [List.mem_filterMap]
      refine ⟨(relKey e1 t e2, d), ?_, ?_⟩
      · rw [hrel]; simp
      · rw [hsplit]
        simp

theorem c10_relation_colon_splitting_witness :
    alGet kbEmpty.relations (relKey (str "a") (str "r") (str "b")) = none ∧
    ((((⟨str "a", str "b", str "r", []⟩ : RelEntry) ∈
        getRelations (addRelation kbEmpty (str "a") (str "b") (str "r") [])
          (str "a") ∧
      (⟨str "a", str "b", str "r", []⟩ : RelEntry) ∈
        getRelations (addRelation kbEmpty (str "a") (str "b") (str "r") [])
          (str "b")) ↔
      (splitColon (relKey (str "a") (str "r") (str "b"))).length = 3) ∧
    ((':' ∈ str "a" ∨ ':' ∈ str "r" ∨ ':' ∈ str "b") →
      ∀ e, (⟨str "a", str "b", str "r", []⟩ : RelEntry) ∉
        getRelations (addRelation kbEmpty (str "a") (str "b") (str "r") []) e)) :=
  ⟨rfl, c10_relation_colon_splitting kbEmpty (str "a") (str "b") (str "r") [] rfl⟩

/-! Helper lemmas for the fund-flow tracer. -/

theorem mem_insertByTsDesc (x y : Str × TxData) (l : List (Str × TxData)) :
    y ∈ insertByTsDesc x l ↔ y = x ∨ y ∈ l := by
  induction l with
  | nil => simp [insertByTsDesc]
  | cons z rest ih =>
    unfold insertByTsDesc
    by_cases hz : tsOf x.2 < tsOf z.2
    · rw [if_pos hz]
      simp only [List.mem_cons, ih]
      tauto
    · rw [if_neg hz]
      simp only [List.mem_cons]

theorem mem_sortByTsDesc (y : Str × TxData) (l : List (Str × TxData)) :
    y ∈ sortByTsDesc l ↔ y ∈ l := by
  induction l with
  | nil => simp [sortByTsDesc]
  | cons x rest ih =>
    unfold sortByTsDesc
    rw [mem_insertByTsDesc, ih, List.mem_cons]

theorem traceLoop_nil
    (recur : Str → List Hop → List FlowPath → List Str → List FlowPath × List Str)
    (depthOne : Bool) (addr : Str) (curPath : List Hop)
    (paths : List FlowPath) (visited : List Str) :
    traceLoop recur depthOne addr curPath [] paths visited = (paths, visited) :=
  rfl

theorem traceLoop_cons_truthy
    (recur : Str → List Hop → List FlowPath → List Str → List FlowPath × List Str)
    (depthOne : Bool) (addr : Str) (curPath : List Hop) (hx : Str) (dx : TxData)
    (rest : List (Str × TxData)) (paths : List FlowPath) (visited : List Str)
    (ht : truthy dx.toA = true) :
    traceLoop recur depthOne addr curPath ((hx, dx) :: rest) paths visited =
      traceLoop recur depthOne addr curPath rest
        (recur (dx.toA.getD [])
          (curPath ++ [⟨hx, addr, dx.toA.getD [], hopValue dx, tsOf dx⟩])
          (if depthOne = true ∨ dx.toA.getD [] ∈ visited then
            paths ++ [curPath ++ [⟨hx, addr, dx.toA.getD [], hopValue dx, tsOf dx⟩]]
          else paths) visited).1
        (recur (dx.toA.getD [])
          (curPath ++ [⟨hx, addr, dx.toA.getD [], hopValue dx, tsOf dx⟩])
          (if depthOne = true ∨ dx.toA.getD [] ∈ visited then
            paths ++ [curPath ++ [⟨hx, addr, dx.toA.getD [], hopValue dx, tsOf dx⟩]]
          else paths) visited).2 := by
  conv_lhs => unfold traceLoop
  rw [if_pos ht]

theorem traceLoop_cons_falsy
    (recur : Str → List Hop → List FlowPath → List Str → List FlowPath × List Str)
    (depthOne : Bool) (addr : Str) (curPath : List Hop) (hx : Str) (dx : TxData)
    (rest : List (Str × TxData)) (paths : List FlowPath) (visited : List Str)
    (ht : ¬ truthy dx.toA = true) :
    traceLoop recur depthOne addr curPath ((hx, dx) :: rest) paths visited =
      traceLoop recur depthOne addr curPath rest paths visited := by
  conv_lhs => unfold traceLoop
  rw [if_neg ht]

theorem traceFundFlow_zero (kb : KB) (addr : Str) (curPath : List Hop)
    (paths : List FlowPath) (visited : List Str) :
    traceFundFlow kb 0 addr curPath paths visited = (paths, visited) := rfl

theorem traceFundFlow_succ_mem (kb : KB) (n : Nat) (addr : Str)
    (curPath : List Hop) (paths : List FlowPath) (visited : List Str)
    (hv : addr ∈ visited) :
    traceFundFlow kb (n + 1) addr curPath paths visited = (paths, visited) := by
  conv_lhs => unfold traceFundFlow
  rw [if_pos hv]

theorem traceFundFlow_succ_notmem (kb : KB) (n : Nat) (addr : Str)
    (curPath : List Hop) (paths : List FlowPath) (visited : List Str)
    (hv : addr ∉ visited) :
    traceFundFlow kb (n + 1) addr curPath paths visited =
      traceLoop (traceFundFlow kb n) (n == 0) addr curPath
        (sortByTsDesc (kb.txs.filter fun p => p.2.fromA == some addr))
        paths (visited ++ [addr]) := by
  conv_lhs => unfold traceFundFlow
  rw [if_neg hv]

theorem traceLoop_paths_bound
    (recur : Str → List Hop → List FlowPath → List Str → List FlowPath × List Str)
    (D : Nat)
    (Hrec : ∀ a p ps v, ∀ q ∈ (recur a p ps v).1,
      q ∈ ps ∨ (0 < q.length ∧ q.length ≤ p.length + D))
    (depthOne : Bool) (addr : Str) (curPath : List Hop)
    (l : List (Str × TxData)) :
    ∀ paths visited,
      ∀ q ∈ (traceLoop recur depthOne addr curPath l paths visited).1,
        q ∈ paths ∨ (0 < q.length ∧ q.length ≤ curPath.length + 1 + D) := by
  induction l with
  | nil =>
    intro paths visited q hq
    exact Or.inl hq
  | cons hd rest ih =>
    obtain ⟨hx, dx⟩ := hd
    intro paths visited q hq
    by_cases ht : truthy dx.toA = true
    · rw [traceLoop_cons_truthy recur depthOne addr curPath hx dx rest paths
        visited ht] at hq
      rcases ih _ _ q hq with hmem | hbound
      · rcases Hrec _ _ _ _ q hmem with hmem2 | ⟨hb1, hb2⟩
        · by_cases hcond : (depthOne = true ∨ dx.toA.getD [] ∈ visited)
          · rw [if_pos hcond] at hmem2
            rcases List.mem_append.mp hmem2 with hmem3 | hmem3
            · exact Or.inl hmem3
            · have hqe : q = curPath ++
                  [⟨hx, addr, dx.toA.getD [], hopValue dx, tsOf dx⟩] :=
                List.mem_singleton.mp hmem3
              subst hqe
              exact Or.inr ⟨by simp, by simp⟩
          · rw [if_neg hcond] at hmem2
            exact Or.inl hmem2
        · refine Or.inr ⟨hb1, ?_⟩
          simp only [List.length_append, List.length_cons,
            List.length_nil] at hb2
          omega
      · exact Or.inr hbound
    · rw [traceLoop_cons_falsy recur depthOne addr curPath hx dx rest paths
        visited ht] at hq
      exact ih _ _ q hq

theorem traceFundFlow_paths_bound (kb : KB) :
    ∀ (d : Nat) (addr : Str) (curPath : List Hop) (paths : List FlowPath)
      (visited : List Str),
      ∀ q ∈ (traceFundFlow kb d addr curPath paths visited).1,
        q ∈ paths ∨ (0 < q.length ∧ q.length ≤ curPath.length + d) := by
  intro d
  induction d with
  | zero =>
    intro addr curPath paths visited q hq
    exact Or.inl hq
  | succ n ih =>
    intro addr curPath paths visited q hq
    by_cases hv : addr ∈ visited
    · rw [traceFundFlow_succ_mem kb n addr curPath paths visited hv] at hq
      exact Or.inl hq
    · rw [traceFundFlow_succ_notmem kb n addr curPath paths visited hv] at hq
      rcases traceLoop_paths_bound (traceFundFlow kb n) n
          (fun a p ps v q hq => ih a p ps v q hq) (n == 0) addr curPath _ _ _
          q hq with hmem | ⟨h1, h2⟩
      · exact Or.inl hmem
      · exact Or.inr ⟨h1, by omega⟩

theorem traceLoop_zero_len_mono (kb : KB) (depthOne : Bool) (addr : Str)
    (curPath : List Hop) (l : List (Str × TxData)) :
    ∀ paths visited, paths.length ≤
      (traceLoop (traceFundFlow kb 0) depthOne addr curPath l paths visited).1.length := by
  induction l with
  | nil => intro paths visited; exact Nat.le_refl _
  | cons hd rest ih =>
    obtain ⟨hx, dx⟩ := hd
    intro paths visited
    by_cases ht : truthy dx.toA = true
    · rw [traceLoop_cons_truthy (traceFundFlow kb 0) depthOne addr curPath hx dx
        rest paths visited ht]
      refine Nat.le_trans ?_ (ih _ _)
      by_cases hcond : (depthOne = true ∨ dx.toA.getD [] ∈ visited)
      · rw [if_pos hcond]
        simp [traceFundFlow]
      · rw [if_neg hcond]
        exact Nat.le_refl _
    · rw [traceLoop_cons_falsy (traceFundFlow kb 0) depthOne addr curPath hx dx
        rest paths visited ht]
      exact ih _ _

theorem traceLoop_zero_grows (kb : KB) (addr : Str) (curPath : List Hop)
    (l : List (Str × TxData)) :
    ∀ paths visited, (∃ x ∈ l, truthy x.2.toA = true) →
      paths.length <
        (traceLoop (traceFundFlow kb 0) true addr curPath l paths visited).1.length := by
  induction l with
  | nil =>
    rintro paths visited ⟨x, hx, _⟩
    exact absurd hx (List.not_mem_nil x)
  | cons hd rest ih =>
    obtain ⟨hx, dx⟩ := hd
    rintro paths visited ⟨x, hxmem, hxt⟩
    by_cases ht : truthy dx.toA = true
    · rw [traceLoop_cons_truthy (traceFundFlow kb 0) true addr curPath hx dx
        rest paths visited ht]
      have hcond : (true = true ∨ dx.toA.getD [] ∈ visited) := Or.inl rfl
      rw [if_pos hcond]
      refine Nat.lt_of_lt_of_le ?_
        (traceLoop_zero_len_mono kb true addr curPath rest _ _)
      show paths.length < ((paths ++ [curPath ++
        [(⟨hx, addr, dx.toA.getD [], hopValue dx, tsOf dx⟩ : Hop)]]).length)
      simp
    · rw [traceLoop_cons_falsy (traceFundFlow kb 0) true addr curPath hx dx
        rest paths visited ht]
      rcases List.mem_cons.mp hxmem with rfl | hxrest
      · exact absurd hxt ht
      · exact ih _ _ ⟨x, hxrest, hxt⟩

/-- C7 counterexample: an address with an outgoing transaction whose data has
no receiver field yields no path at depth 1, contradicting the claim that an
address having outgoing transactions always produces at least one single-hop
path. -/
theorem c7_counterexample :
    (str "t", ({ fromA := some (str "a") } : TxData)) ∈
      (KB.mk [(str "t", { fromA := some (str "a") })] [] [] []).txs ∧
    ({ fromA := some (str "a") } : TxData).fromA = some (str "a") ∧
    queryFundFlow (KB.mk [(str "t", { fromA := some (str "a") })] [] [] [])
      (str "a") 1 = [] :=
  ⟨by decide, rfl, rfl⟩

/-- C7 amended: every path returned by `query_fund_flow(source, depth)` has
at most `depth` hops, and with depth 1 an address having an outgoing
transaction with a truthy receiver yields at least one single-hop path (an
outgoing transaction whose receiver field is absent or empty records no
path). -/
theorem c7_fund_flow_depth_bound (kb : KB) (src : Str) (depth : Nat) :
    (∀ p ∈ queryFundFlow kb src depth, p.length ≤ depth) ∧
    ((∃ hx dx, (hx, dx) ∈ kb.txs ∧ dx.fromA = some src ∧ truthy dx.toA = true) →
      ∃ p ∈ queryFundFlow kb src 1, p.length = 1) := by
  constructor
  · intro p hp
    rcases traceFundFlow_paths_bound kb depth src [] [] [] p hp with h | ⟨_, h2⟩
    · exact absurd h (List.not_mem_nil p)
    · simpa using h2
  · rintro ⟨hx, dx, hmem, hfrom, htr⟩
    have hv : src ∉ ([] : List Str) := List.not_mem_nil src
    have hred : queryFundFlow kb src 1 =
        (traceLoop (traceFundFlow kb 0) true src []
          (sortByTsDesc (kb.txs.filter fun p => p.2.fromA == some src))
          [] [src]).1 := by
      unfold queryFundFlow
      rw [show (1 : Nat) = 0 + 1 from rfl,
        traceFundFlow_succ_notmem kb 0 src [] [] [] hv]
      rfl
    have hmemf : (hx, dx) ∈
        sortByTsDesc (kb.txs.filter fun p => p.2.fromA == some src) := by
      rw [mem_sortByTsDesc, List.mem_filter]
      exact ⟨hmem, by rw [hfrom]; simp⟩
    have hgrow := traceLoop_zero_grows kb src []
      (sortByTsDesc (kb.txs.filter fun p => p.2.fromA == some src)) [] [src]
      ⟨(hx, dx), hmemf, htr⟩
    have hne : queryFundFlow kb src 1 ≠ [] := by
      intro e
      rw [hred] at e
      rw [e] at hgrow
      simp at hgrow
    obtain ⟨p, hp⟩ := List.exists_mem_of_ne_nil _ hne
    refine ⟨p, hp, ?_⟩
    rcases traceFundFlow_paths_bound kb 1 src [] [] [] p hp with h | ⟨h1, h2⟩
    · exact absurd h (List.not_mem_nil p)
    · simp only [List.length_nil, Nat.zero_add] at h2
      omega

theorem c7_fund_flow_depth_bound_witness :
    ∃ p ∈ queryFundFlow
      (KB.mk [(str "t", { fromA := some (str "a"), toA := some (str "b") })]
        [] [] []) (str "a") 1, p.length = 1 :=
  (c7_fund_flow_depth_bound
    (KB.mk [(str "t", { fromA := some (str "a"), toA := some (str "b") })]
      [] [] []) (str "a") 1).2
    ⟨str "t", { fromA := some (str "a"), toA := some (str "b") },
      by decide, rfl, rfl⟩

theorem detectSplitting_all_splitting (kb : KB) :
    ∀ f ∈ detectSplittingPatterns kb, f.isSplitting = true := by
  intro f hf
  unfold detectSplittingPatterns at hf
  rw [List.mem_filterMap] at hf
  obtain ⟨g, _, hfg⟩ := hf
  split_ifs at hfg
  rw [← Option.some.inj hfg]
  rfl

theorem detectMerging_all_merging (kb : KB) :
    ∀ f ∈ detectMergingPatterns kb, f.isMerging = true := by
  intro f hf
  unfold detectMergingPatterns at hf
  rw [List.mem_filterMap] at hf
  obtain ⟨g, _, hfg⟩ := hf
  split_ifs at hfg
  rw [← Option.some.inj hfg]
  rfl

theorem detectCyclic_all_cyclic (kb : KB) :
    ∀ f ∈ detectCyclicTransfers kb, f.isCyclic = true := by
  intro f hf
  unfold detectCyclicTransfers at hf
  rw [List.mem_filterMap] at hf
  obtain ⟨g, _, hfg⟩ := hf
  simp only [] at hfg
  split_ifs at hfg
  rw [← Option.some.inj hfg]
  rfl

theorem filter_isSplitting_detect (kb : KB) :
    (detectSuspiciousPatterns kb).filter Finding.isSplitting =
      detectSplittingPatterns kb := by
  unfold detectSuspiciousPatterns
  rw [List.filter_append, List.filter_append]
  have h1 : (detectSplittingPatterns kb).filter Finding.isSplitting =
      detectSplittingPatterns kb := by
    rw [List.filter_eq_self]
    exact detectSplitting_all_splitting kb
  have h2 : (detectMergingPatterns kb).filter Finding.isSplitting = [] := by
    rw [List.filter_eq_nil_iff]
    intro f hf
    have := detectMerging_all_merging kb f hf
    cases f <;> simp_all [Finding.isMerging, Finding.isSplitting]
  have h3 : (detectCyclicTransfers kb).filter Finding.isSplitting = [] := by
    rw [List.filter_eq_nil_iff]
    intro f hf
    have := detectCyclic_all_cyclic kb f hf
    cases f <;> simp_all [Finding.isCyclic, Finding.isSplitting]
  rw [h1, h2, h3, List.append_nil, List.append_nil]

theorem filter_isCyclic_detect (kb : KB) :
    (detectSuspiciousPatterns kb).filter Finding.isCyclic =
      detectCyclicTransfers kb := by
  unfold detectSuspiciousPatterns
  rw [List.filter_append, List.filter_append]
  have h1 : (detectSplittingPatterns kb).filter Finding.isCyclic = [] := by
    rw [List.filter_eq_nil_iff]
    intro f hf
    have := detectSplitting_all_splitting kb f hf
    cases f <;> simp_all [Finding.isSplitting, Finding.isCyclic]
  have h2 : (detectMergingPatterns kb).filter Finding.isCyclic = [] := by
    rw [List.filter_eq_nil_iff]
    intro f hf
    have := detectMerging_all_merging kb f hf
    cases f <;> simp_all [Finding.isMerging, Finding.isCyclic]
  have h3 : (detectCyclicTransfers kb).filter Finding.isCyclic =
      detectCyclicTransfers kb := by
    rw [List.filter_eq_self]
    exact detectCyclic_all_cyclic kb
  rw [h1, h2, h3]
  simp

theorem groupByWindow_go (side : TxData → Option Str) (key : Str) :
    ∀ (txs : List (Str × TxData)) (acc : List (Str × TxData)),
      (∀ p ∈ txs, truthy (side p.2) = true ∧
        groupKey ((side p.2).getD []) (tsWindow (tsOf p.2)) = key) →
      List.foldl (groupStep side) [(key, acc)] txs = [(key, acc ++ txs)] := by
  intro txs
  induction txs with
  | nil => intro acc _; simp
  | cons t rest ih =>
    intro acc hall
    obtain ⟨ht, hk⟩ := hall t (List.mem_cons_self t rest)
    have hstep : groupStep side [(key, acc)] t = [(key, acc ++ [t])] := by
      unfold groupStep
      rw [ht, hk]
      simp [alGet, alInsert]
    rw [List.foldl_cons, hstep,
      ih (acc ++ [t]) (fun p hp => hall p (List.mem_cons_of_mem t hp))]
    simp

theorem groupByWindow_const (side : TxData → Option Str) (key : Str)
    (txs : List (Str × TxData)) (hne : txs ≠ [])
    (hall : ∀ p ∈ txs, truthy (side p.2) = true ∧
      groupKey ((side p.2).getD []) (tsWindow (tsOf p.2)) = key) :
    groupByWindow side txs = [(key, txs)] := by
  cases txs with
  | nil => exact absurd rfl hne
  | cons t rest =>
    obtain ⟨ht, hk⟩ := hall t (List.mem_cons_self t rest)
    unfold groupByWindow
    rw [List.foldl_cons]
    have hstep0 : groupStep side [] t = [(key, [t])] := by
      unfold groupStep
      rw [ht, hk]
      simp [alGet]
    rw [hstep0,
      groupByWindow_go side key rest [t]
        (fun p hp => hall p (List.mem_cons_of_mem t hp))]
    simp

theorem keyHead_append (s t : Str) :
    keyHead (s ++ ':' :: t) = s.takeWhile (fun c => c != ':') := by
  induction s with
  | nil => simp [keyHead, splitColon]
  | cons c rest ih =>
    by_cases hc : c = ':'
    · subst hc
      simp [keyHead, splitColon]
    · have hne := splitColon_ne_nil (rest ++ ':' :: t)
      cases hs : splitColon (rest ++ ':' :: t) with
      | nil => exact absurd hs hne
      | cons a as =>
        have hsplit2 : splitColon ((c :: rest) ++ ':' :: t) = (c :: a) :: as := by
          rw [List.cons_append]
          conv_lhs => unfold splitColon
          rw [if_neg hc, hs]
        have iha : a = rest.takeWhile (fun c => c != ':') := by
          have h2 := ih
          rw [keyHead, hs] at h2
          simpa using h2
        rw [keyHead, hsplit2]
        simp only [List.headD_cons, List.takeWhile_cons]
        rw [if_pos (by simp [hc]), iha]

theorem keyHead_groupKey (s : Str) (w : Int) :
    keyHead (groupKey s w) = s.takeWhile (fun c => c != ':') :=
  keyHead_append s (intStr w)

/-- C5 counterexample: five same-hour transfers from the sender "x:y" to
three distinct receivers produce exactly one fund-splitting finding, but its
sender field is the truncated "x" (the grouping key `f"{sender}:{window}"`
is split back on ':' and the first part taken), not the sender itself. -/
theorem c5_counterexample :
    (detectSuspiciousPatterns (KB.mk
      [(str "h1", { fromA := some (str "x:y"), toA := some (str "B"), timestamp := some 10 }),
       (str "h2", { fromA := some (str "x:y"), toA := some (str "C"), timestamp := some 20 }),
       (str "h3", { fromA := some (str "x:y"), toA := some (str "D"), timestamp := some 30 }),
       (str "h4", { fromA := some (str "x:y"), toA := some (str "B"), timestamp := some 40 }),
       (str "h5", { fromA := some (str "x:y"), toA := some (str "C"), timestamp := some 50 })]
      [] [] [])).filter Finding.isSplitting =
      [.fundSplitting (str "x") 3 5
        [str "h1", str "h2", str "h3", str "h4", str "h5"]] ∧
    str "x" ≠ str "x:y" :=
  ⟨by decide, by decide⟩

/-- C5 amended: a store holding exactly five transactions from one sender S
(with truthy receivers) to exactly three distinct receivers, all in the same
hour bucket, yields exactly one fund-splitting finding whose sender is the
prefix of S before its first colon (S itself whenever S contains no colon),
with recipient_count 3, transaction_count 5 and the five hashes; with only
the first four such transactions there is no splitting finding. -/
theorem c5_splitting_scenario
    (S u1 u2 u3 u4 u5 h1 h2 h3 h4 h5 : Str)
    (d1 d2 d3 d4 d5 : TxData) (w : Int)
    (hS : S ≠ [])
    (hf1 : d1.fromA = some S) (hf2 : d2.fromA = some S)
    (hf3 : d3.fromA = some S) (hf4 : d4.fromA = some S)
    (hf5 : d5.fromA = some S)
    (ht1 : d1.toA = some u1) (ht2 : d2.toA = some u2)
    (ht3 : d3.toA = some u3) (ht4 : d4.toA = some u4)
    (ht5 : d5.toA = some u5)
    (hu1 : u1 ≠ []) (hu2 : u2 ≠ []) (hu3 : u3 ≠ []) (hu4 : u4 ≠ [])
    (hu5 : u5 ≠ [])
    (hw1 : tsWindow (tsOf d1) = w) (hw2 : tsWindow (tsOf d2) = w)
    (hw3 : tsWindow (tsOf d3) = w) (hw4 : tsWindow (tsOf d4) = w)
    (hw5 : tsWindow (tsOf d5) = w)
    (hdis : distinctCount [u1, u2, u3, u4, u5] = 3) :
    (detectSuspiciousPatterns
        (KB.mk [(h1, d1), (h2, d2), (h3, d3), (h4, d4), (h5, d5)]
          [] [] [])).filter Finding.isSplitting =
      [.fundSplitting (S.takeWhile (fun c => c != ':')) 3 5
        [h1, h2, h3, h4, h5]] ∧
    (detectSuspiciousPatterns
        (KB.mk [(h1, d1), (h2, d2), (h3, d3), (h4, d4)] [] [] [])).filter
        Finding.isSplitting = [] := by
  have htr : truthy (some S) = true := truthy_some_of_ne_nil S hS
  constructor
  · rw [filter_isSplitting_detect]
    have hall5 : ∀ p ∈ ([(h1, d1), (h2, d2), (h3, d3), (h4, d4), (h5, d5)] :
        List (Str × TxData)),
        truthy p.2.fromA = true ∧
        groupKey (p.2.fromA.getD []) (tsWindow (tsOf p.2)) = groupKey S w := by
      intro p hp
      simp only [List.mem_cons, List.not_mem_nil, or_false] at hp
      rcases hp with rfl | rfl | rfl | rfl | rfl
      · exact ⟨by rw [hf1]; exact htr, by rw [hf1, hw1]; rfl⟩
      · exact ⟨by rw [hf2]; exact htr, by rw [hf2, hw2]; rfl⟩
      · exact ⟨by rw [hf3]; exact htr, by rw [hf3, hw3]; rfl⟩
      · exact ⟨by rw [hf4]; exact htr, by rw [hf4, hw4]; rfl⟩
      · exact ⟨by rw [hf5]; exact htr, by rw [hf5, hw5]; rfl⟩
    have hgrp5 := groupByWindow_const TxData.fromA (groupKey S w)
      [(h1, d1), (h2, d2), (h3, d3), (h4, d4), (h5, d5)] (by simp) hall5
    have htos : truthyTos [(h1, d1), (h2, d2), (h3, d3), (h4, d4), (h5, d5)] =
        [u1, u2, u3, u4, u5] := by
      unfold truthyTos
      simp [ht1, ht2, ht3, ht4, ht5, truthy_some_of_ne_nil u1 hu1,
        truthy_some_of_ne_nil u2 hu2, truthy_some_of_ne_nil u3 hu3,
        truthy_some_of_ne_nil u4 hu4, truthy_some_of_ne_nil u5 hu5]
    unfold detectSplittingPatterns
    rw [show (KB.mk [(h1, d1), (h2, d2), (h3, d3), (h4, d4), (h5, d5)]
        [] [] []).txs = [(h1, d1), (h2, d2), (h3, d3), (h4, d4), (h5, d5)]
      from rfl, hgrp5]
    simp only [List.filterMap_cons, List.filterMap_nil]
    rw [show ([(h1, d1), (h2, d2), (h3, d3), (h4, d4), (h5, d5)] :
        List (Str × TxData)).length = 5 from rfl]
    rw [htos, hdis]
    rw [if_pos (by omega : (5 : Nat) ≤ 5), if_pos (by omega : (3 : Nat) ≤ 3)]
    rw [keyHead_groupKey]
    rfl
  · rw [filter_isSplitting_detect]
    have hall4 : ∀ p ∈ ([(h1, d1), (h2, d2), (h3, d3), (h4, d4)] :
        List (Str × TxData)),
        truthy p.2.fromA = true ∧
        groupKey (p.2.fromA.getD []) (tsWindow (tsOf p.2)) = groupKey S w := by
      intro p hp
      simp only [List.mem_cons, List.not_mem_nil, or_false] at hp
      rcases hp with rfl | rfl | rfl | rfl
      · exact ⟨by rw [hf1]; exact htr, by rw [hf1, hw1]; rfl⟩
      · exact ⟨by rw [hf2]; exact htr, by rw [hf2, hw2]; rfl⟩
      · exact ⟨by rw [hf3]; exact htr, by rw [hf3, hw3]; rfl⟩
      · exact ⟨by rw [hf4]; exact htr, by rw [hf4, hw4]; rfl⟩
    have hgrp4 := groupByWindow_const TxData.fromA (groupKey S w)
      [(h1, d1), (h2, d2), (h3, d3), (h4, d4)] (by simp) hall4
    unfold detectSplittingPatterns
    rw [show (KB.mk [(h1, d1), (h2, d2), (h3, d3), (h4, d4)] [] [] []).txs =
        [(h1, d1), (h2, d2), (h3, d3), (h4, d4)] from rfl, hgrp4]
    simp only [List.filterMap_cons, List.filterMap_nil]
    rw [show ([(h1, d1), (h2, d2), (h3, d3), (h4, d4)] :
        List (Str × TxData)).length = 4 from rfl]
    rw [if_neg (by omega : ¬ ((5 : Nat) ≤ 4))]

theorem c5_splitting_scenario_witness :
    (detectSuspiciousPatterns
        (KB.mk
          [(str "h1", { fromA := some (str "S"), toA := some (str "B"), timestamp := some 10 }),
           (str "h2", { fromA := some (str "S"), toA := some (str "C"), timestamp := some 20 }),
           (str "h3", { fromA := some (str "S"), toA := some (str "D"), timestamp := some 30 }),
           (str "h4", { fromA := some (str "S"), toA := some (str "B"), timestamp := some 40 }),
           (str "h5", { fromA := some (str "S"), toA := some (str "C"), timestamp := some 50 })]
          [] [] [])).filter Finding.isSplitting =
      [.fundSplitting ((str "S").takeWhile (fun c => c != ':')) 3 5
        [str "h1", str "h2", str "h3", str "h4", str "h5"]] ∧
    (detectSuspiciousPatterns
        (KB.mk
          [(str "h1", { fromA := some (str "S"), toA := some (str "B"), timestamp := some 10 }),
           (str "h2", { fromA := some (str "S"), toA := some (str "C"), timestamp := some 20 }),
           (str "h3", { fromA := some (str "S"), toA := some (str "D"), timestamp := some 30 }),
           (str "h4", { fromA := some (str "S"), toA := some (str "B"), timestamp := some 40 })]
          [] [] [])).filter Finding.isSplitting = [] :=
  c5_splitting_scenario (str "S") (str "B") (str "C") (str "D") (str "B")
    (str "C") (str "h1") (str "h2") (str "h3") (str "h4") (str "h5")
    _ _ _ _ _ 0 (by decide) rfl rfl rfl rfl rfl rfl rfl rfl rfl rfl
    (by decide) (by decide) (by decide) (by decide) (by decide)
    (by decide) (by decide) (by decide) (by decide) (by decide)
    (by decide)

theorem findCycle_succ (graph : Dict (Dict (List Str))) (f : Nat)
    (current : Str) (visited path : List Str) :
    findCycle graph (f + 1) current visited path =
      (match alGet graph current with
       | none => (([] : List Str), addSet visited current)
       | some nbrs =>
         findCycleLoop (findCycle graph f) nbrs (addSet visited current)
           (path ++ [current])) := by
  conv_lhs => unfold findCycle

theorem findCycle_triangle_A (A B C h1 h2 h3 : Str)
    (hAB : A ≠ B) (hBC : B ≠ C) (hAC : A ≠ C) :
    findCycle [(A, [(B, [h1])]), (B, [(C, [h2])]), (C, [(A, [h3])])] 4
      A [] [] = ([A, B, C], [A, B, C]) := by
  have hloop3 : findCycleLoop
      (findCycle [(A, [(B, [h1])]), (B, [(C, [h2])]), (C, [(A, [h3])])] 1)
      [(A, [h3])] [A, B, C] [A, B, C] = ([A, B, C], [A, B, C]) := by
    unfold findCycleLoop
    rw [if_pos (show A ∈ [A, B, C] from by simp),
      if_pos (show A ∈ [A, B, C] from by simp)]
    simp [listIndexOf]
  have hfc2 : findCycle
      [(A, [(B, [h1])]), (B, [(C, [h2])]), (C, [(A, [h3])])] 2
      C [A, B] [A, B] = ([A, B, C], [A, B, C]) := by
    rw [show (2 : Nat) = 1 + 1 from rfl, findCycle_succ]
    rw [show alGet [(A, [(B, [h1])]), (B, [(C, [h2])]), (C, [(A, [h3])])] C =
        some [(A, [h3])] from by simp [alGet, hAC, hBC]]
    rw [show addSet [A, B] C = [A, B, C] from by
      simp [addSet, Ne.symm hAC, Ne.symm hBC]]
    rw [show ([A, B] : List Str) ++ [C] = [A, B, C] from rfl]
    exact hloop3
  have hloop2 : findCycleLoop
      (findCycle [(A, [(B, [h1])]), (B, [(C, [h2])]), (C, [(A, [h3])])] 2)
      [(C, [h2])] [A, B] [A, B] = ([A, B, C], [A, B, C]) := by
    unfold findCycleLoop
    rw [if_neg (show ¬ (C ∈ [A, B]) from by simp [Ne.symm hAC, Ne.symm hBC])]
    rw [hfc2]
  have hfc3 : findCycle
      [(A, [(B, [h1])]), (B, [(C, [h2])]), (C, [(A, [h3])])] 3
      B [A] [A] = ([A, B, C], [A, B, C]) := by
    rw [show (3 : Nat) = 2 + 1 from rfl, findCycle_succ]
    rw [show alGet [(A, [(B, [h1])]), (B, [(C, [h2])]), (C, [(A, [h3])])] B =
        some [(C, [h2])] from by simp [alGet, hAB]]
    rw [show addSet [A] B = [A, B] from by simp [addSet, Ne.symm hAB]]
    rw [show ([A] : List Str) ++ [B] = [A, B] from rfl]
    exact hloop2
  have hloop1 : findCycleLoop
      (findCycle [(A, [(B, [h1])]), (B, [(C, [h2])]), (C, [(A, [h3])])] 3)
      [(B, [h1])] [A] [A] = ([A, B, C], [A, B, C]) := by
    unfold findCycleLoop
    rw [if_neg (show ¬ (B ∈ [A]) from by simp [Ne.symm hAB])]
    rw [hfc3]
  rw [show (4 : Nat) = 3 + 1 from rfl, findCycle_succ]
  rw [show alGet [(A, [(B, [h1])]), (B, [(C, [h2])]), (C, [(A, [h3])])] A =
      some [(B, [h1])] from by simp [alGet]]
  rw [show addSet ([] : List Str) A = [A] from by simp [addSet]]
  rw [show ([] : List Str) ++ [A] = [A] from rfl]
  exact hloop1

theorem findCycle_triangle_B (A B C h1 h2 h3 : Str)
    (hAB : A ≠ B) (hBC : B ≠ C) (hAC : A ≠ C) :
    findCycle [(A, [(B, [h1])]), (B, [(C, [h2])]), (C, [(A, [h3])])] 4
      B [] [] = ([B, C, A], [B, C, A]) := by
  have hloop3 : findCycleLoop
      (findCycle [(A, [(B, [h1])]), (B, [(C, [h2])]), (C, [(A, [h3])])] 1)
      [(B, [h1])] [B, C, A] [B, C, A] = ([B, C, A], [B, C, A]) := by
    unfold findCycleLoop
    rw [if_pos (show B ∈ [B, C, A] from by simp),
      if_pos (show B ∈ [B, C, A] from by simp)]
    simp [listIndexOf]
  have hfc2 : findCycle
      [(A, [(B, [h1])]), (B, [(C, [h2])]), (C, [(A, [h3])])] 2
      A [B, C] [B, C] = ([B, C, A], [B, C, A]) := by
    rw [show (2 : Nat) = 1 + 1 from rfl, findCycle_succ]
    rw [show alGet [(A, [(B, [h1])]), (B, [(C, [h2])]), (C, [(A, [h3])])] A =
        some [(B, [h1])] from by simp [alGet]]
    rw [show addSet [B, C] A = [B, C, A] from by simp [addSet, hAB, hAC]]
    rw [show ([B, C] : List Str) ++ [A] = [B, C, A] from rfl]
    exact hloop3
  have hloop2 : findCycleLoop
      (findCycle [(A, [(B, [h1])]), (B, [(C, [h2])]), (C, [(A, [h3])])] 2)
      [(A, [h3])] [B, C] [B, C] = ([B, C, A], [B, C, A]) := by
    unfold findCycleLoop
    rw [if_neg (show ¬ (A ∈ [B, C]) from by simp [hAB, hAC])]
    rw [hfc2]
  have hfc3 : findCycle
      [(A, [(B, [h1])]), (B, [(C, [h2])]), (C, [(A, [h3])])] 3
      C [B] [B] = ([B, C, A], [B, C, A]) := by
    rw [show (3 : Nat) = 2 + 1 from rfl, findCycle_succ]
    rw [show alGet [(A, [(B, [h1])]), (B, [(C, [h2])]), (C, [(A, [h3])])] C =
        some [(A, [h3])] from by simp [alGet, hAC, hBC]]
    rw [show addSet [B] C = [B, C] from by simp [addSet, Ne.symm hBC]]
    rw [show ([B] : List Str) ++ [C] = [B, C] from rfl]
    exact hloop2
  have hloop1 : findCycleLoop
      (findCycle [(A, [(B, [h1])]), (B, [(C, [h2])]), (C, [(A, [h3])])] 3)
      [(C, [h2])] [B] [B] = ([B, C, A], [B, C, A]) := by
    unfold findCycleLoop
    rw [if_neg (show ¬ (C ∈ [B]) from by simp [Ne.symm hBC])]
    rw [hfc3]
  rw [show (4 : Nat) = 3 + 1 from rfl, findCycle_succ]
  rw [show alGet [(A, [(B, [h1])]), (B, [(C, [h2])]), (C, [(A, [h3])])] B =
      some [(C, [h2])] from by simp [alGet, hAB]]
  rw [show addSet ([] : List Str) B = [B] from by simp [addSet]]
  rw [show ([] : List Str) ++ [B] = [B] from rfl]
  exact hloop1

theorem findCycle_triangle_C (A B C h1 h2 h3 : Str)
    (hAB : A ≠ B) (hBC : B ≠ C) (hAC : A ≠ C) :
    findCycle [(A, [(B, [h1])]), (B, [(C, [h2])]), (C, [(A, [h3])])] 4
      C [] [] = ([C, A, B], [C, A, B]) := by
  have hloop3 : findCycleLoop
      (findCycle [(A, [(B, [h1])]), (B, [(C, [h2])]), (C, [(A, [h3])])] 1)
      [(C, [h2])] [C, A, B] [C, A, B] = ([C, A, B], [C, A, B]) := by
    unfold findCycleLoop
    rw [if_pos (show C ∈ [C, A, B] from by simp),
      if_pos (show C ∈ [C, A, B] from by simp)]
    simp [listIndexOf]
  have hfc2 : findCycle
      [(A, [(B, [h1])]), (B, [(C, [h2])]), (C, [(A, [h3])])] 2
      B [C, A] [C, A] = ([C, A, B], [C, A, B]) := by
    rw [show (2 : Nat) = 1 + 1 from rfl, findCycle_succ]
    rw [show alGet [(A, [(B, [h1])]), (B, [(C, [h2])]), (C, [(A, [h3])])] B =
        some [(C, [h2])] from by simp [alGet, hAB]]
    rw [show addSet [C, A] B = [C, A, B] from by
      simp [addSet, Ne.symm hAB, hBC]]
    rw [show ([C, A] : List Str) ++ [B] = [C, A, B] from rfl]
    exact hloop3
  have hloop2 : findCycleLoop
      (findCycle [(A, [(B, [h1])]), (B, [(C, [h2])]), (C, [(A, [h3])])] 2)
      [(B, [h1])] [C, A] [C, A] = ([C, A, B], [C, A, B]) := by
    unfold findCycleLoop
    rw [if_neg (show ¬ (B ∈ [C, A]) from by simp [Ne.symm hAB, hBC])]
    rw [hfc2]
  have hfc3 : findCycle
      [(A, [(B, [h1])]), (B, [(C, [h2])]), (C, [(A, [h3])])] 3
      A [C] [C] = ([C, A, B], [C, A, B]) := by
    rw [show (3 : Nat) = 2 + 1 from rfl, findCycle_succ]
    rw [show alGet [(A, [(B, [h1])]), (B, [(C, [h2])]), (C, [(A, [h3])])] A =
        some [(B, [h1])] from by simp [alGet]]
    rw [show addSet [C] A = [C, A] from by simp [addSet, hAC]]
    rw [show ([C] : List Str) ++ [A] = [C, A] from rfl]
    exact hloop2
  have hloop1 : findCycleLoop
      (findCycle [(A, [(B, [h1])]), (B, [(C, [h2])]), (C, [(A, [h3])])] 3)
      [(A, [h3])] [C] [C] = ([C, A, B], [C, A, B]) := by
    unfold findCycleLoop
    rw [if_neg (show ¬ (A ∈ [C]) from by simp [hAC])]
    rw [hfc3]
  rw [show (4 : Nat) = 3 + 1 from rfl, findCycle_succ]
  rw [show alGet [(A, [(B, [h1])]), (B, [(C, [h2])]), (C, [(A, [h3])])] C =
      some [(A, [h3])] from by simp [alGet, hAC, hBC]]
  rw [show addSet ([] : List Str) C = [C] from by simp [addSet]]
  rw [show ([] : List Str) ++ [C] = [C] from rfl]
  exact hloop1

theorem getCycleTransactions_triangle_A (A B C h1 h2 h3 : Str)
    (hAB : A ≠ B) (hBC : B ≠ C) (hAC : A ≠ C) :
    getCycleTransactions [(A, [(B, [h1])]), (B, [(C, [h2])]), (C, [(A, [h3])])]
      [A, B, C] = [h1, h2, h3] := by
  unfold getCycleTransactions
  rw [show List.range ([A, B, C] : List Str).length = [0, 1, 2] from rfl]
  simp [alGet, List.getD, hAB, hBC, hAC, Ne.symm hAB, Ne.symm hBC, Ne.symm hAC]

theorem getCycleTransactions_triangle_B (A B C h1 h2 h3 : Str)
    (hAB : A ≠ B) (hBC : B ≠ C) (hAC : A ≠ C) :
    getCycleTransactions [(A, [(B, [h1])]), (B, [(C, [h2])]), (C, [(A, [h3])])]
      [B, C, A] = [h2, h3, h1] := by
  unfold getCycleTransactions
  rw [show List.range ([B, C, A] : List Str).length = [0, 1, 2] from rfl]
  simp [alGet, List.getD, hAB, hBC, hAC, Ne.symm hAB, Ne.symm hBC, Ne.symm hAC]

theorem getCycleTransactions_triangle_C (A B C h1 h2 h3 : Str)
    (hAB : A ≠ B) (hBC : B ≠ C) (hAC : A ≠ C) :
    getCycleTransactions [(A, [(B, [h1])]), (B, [(C, [h2])]), (C, [(A, [h3])])]
      [C, A, B] = [h3, h1, h2] := by
  unfold getCycleTransactions
  rw [show List.range ([C, A, B] : List Str).length = [0, 1, 2] from rfl]
  simp [alGet, List.getD, hAB, hBC, hAC, Ne.symm hAB, Ne.symm hBC, Ne.symm hAC]

/-- C2 counterexample: for the store holding exactly the three transactions
a→b, b→c, c→a, `detect_suspicious_patterns` returns three cyclic-transfer
findings (one per starting node of the per-node DFS, each a rotation of the
same cycle), not exactly one as claimed. -/
theorem c2_counterexample :
    (detectSuspiciousPatterns (KB.mk
      [(str "1", { fromA := some (str "a"), toA := some (str "b"), hash := some (str "1") }),
       (str "2", { fromA := some (str "b"), toA := some (str "c"), hash := some (str "2") }),
       (str "3", { fromA := some (str "c"), toA := some (str "a"), hash := some (str "3") })]
      [] [] [])).filter Finding.isCyclic =
      [.cyclicTransfers [str "a", str "b", str "c"] [str "1", str "2", str "3"],
       .cyclicTransfers [str "b", str "c", str "a"] [str "2", str "3", str "1"],
       .cyclicTransfers [str "c", str "a", str "b"] [str "3", str "1", str "2"]] ∧
    ((3 : Nat) ≠ 1) :=
  ⟨by decide, by decide⟩

/-- C2 amended: in a store containing exactly the three transactions A→B,
B→C, C→A (distinct non-empty addresses, distinct hashes),
`detect_suspicious_patterns` returns exactly three cyclic-transfer findings,
one per starting node, each a rotation of the cycle (A, B, C); every one of
them carries exactly the addresses A, B, C and all three transaction
hashes. -/
theorem c2_cycle_three_findings
    (A B C h1 h2 h3 : Str) (d1 d2 d3 : TxData)
    (hA : A ≠ []) (hB : B ≠ []) (hC : C ≠ [])
    (hAB : A ≠ B) (hBC : B ≠ C) (hAC : A ≠ C)
    (h12 : h1 ≠ h2) (h13 : h1 ≠ h3) (h23 : h2 ≠ h3)
    (hd1f : d1.fromA = some A) (hd1t : d1.toA = some B)
    (hd2f : d2.fromA = some B) (hd2t : d2.toA = some C)
    (hd3f : d3.fromA = some C) (hd3t : d3.toA = some A) :
    (detectSuspiciousPatterns
        (KB.mk [(h1, d1), (h2, d2), (h3, d3)] [] [] [])).filter
        Finding.isCyclic =
      [.cyclicTransfers [A, B, C] [h1, h2, h3],
       .cyclicTransfers [B, C, A] [h2, h3, h1],
       .cyclicTransfers [C, A, B] [h3, h1, h2]] := by
  rw [filter_isCyclic_detect]
  have hstep1 : graphStep [] (h1, d1) = [(A, [(B, [h1])])] := by
    unfold graphStep
    rw [hd1f, hd1t, truthy_some_of_ne_nil A hA, truthy_some_of_ne_nil B hB]
    rfl
  have hstep2 : graphStep [(A, [(B, [h1])])] (h2, d2) =
      [(A, [(B, [h1])]), (B, [(C, [h2])])] := by
    unfold graphStep
    rw [hd2f, hd2t, truthy_some_of_ne_nil B hB, truthy_some_of_ne_nil C hC]
    simp [alGet, hAB]
  have hstep3 : graphStep [(A, [(B, [h1])]), (B, [(C, [h2])])] (h3, d3) =
      [(A, [(B, [h1])]), (B, [(C, [h2])]), (C, [(A, [h3])])] := by
    unfold graphStep
    rw [hd3f, hd3t, truthy_some_of_ne_nil C hC, truthy_some_of_ne_nil A hA]
    simp [alGet, hAC, hBC]
  have hgraph : buildGraph [(h1, d1), (h2, d2), (h3, d3)] =
      [(A, [(B, [h1])]), (B, [(C, [h2])]), (C, [(A, [h3])])] := by
    unfold buildGraph
    rw [List.foldl_cons, hstep1, List.foldl_cons, hstep2, List.foldl_cons,
      hstep3, List.foldl_nil]
  simp only [detectCyclicTransfers]
  rw [hgraph]
  simp only [List.filterMap_cons, List.filterMap_nil, List.length_cons,
    List.length_nil,
    findCycle_triangle_A A B C h1 h2 h3 hAB hBC hAC,
    findCycle_triangle_B A B C h1 h2 h3 hAB hBC hAC,
    findCycle_triangle_C A B C h1 h2 h3 hAB hBC hAC,
    getCycleTransactions_triangle_A A B C h1 h2 h3 hAB hBC hAC,
    getCycleTransactions_triangle_B A B C h1 h2 h3 hAB hBC hAC,
    getCycleTransactions_triangle_C A B C h1 h2 h3 hAB hBC hAC,
    List.isEmpty_cons]
  rfl

theorem c2_cycle_three_findings_witness :
    (detectSuspiciousPatterns (KB.mk
      [(str "1", { fromA := some (str "a"), toA := some (str "b") }),
       (str "2", { fromA := some (str "b"), toA := some (str "c") }),
       (str "3", { fromA := some (str "c"), toA := some (str "a") })]
      [] [] [])).filter Finding.isCyclic =
      [.cyclicTransfers [str "a", str "b", str "c"] [str "1", str "2", str "3"],
       .cyclicTransfers [str "b", str "c", str "a"] [str "2", str "3", str "1"],
       .cyclicTransfers [str "c", str "a", str "b"] [str "3", str "1", str "2"]] :=
  c2_cycle_three_findings (str "a") (str "b") (str "c") (str "1") (str "2")
    (str "3") _ _ _ (by decide) (by decide) (by decide) (by decide) (by decide)
    (by decide) (by decide) (by decide) (by decide) rfl rfl rfl rfl rfl rfl
